import Mathlib

/-!
Verification development for the `python_intent_recognition` training and
evaluation pipeline (`training/train.py`, `evaluation/evaluate.py`,
`test_lightweight.py`).

The pipeline's state-manipulating Python code is shallowly embedded:
losses, learning rates and probabilities become rationals, tensors of
weights become lists of rationals, the mutable trainer state becomes an
explicit record threaded through a recursive epoch loop, and the PyTorch
heap (needed to reason about `state_dict().copy()` aliasing) becomes an
explicit list of cells addressed by indices.
-/

namespace IntentRec

/-! ## Learning-rate schedule

`get_linear_schedule_with_warmup` (called at `train.py` line 150) applies a
`LambdaLR` whose lambda is, in the library source,
`current_step / max(1, num_warmup_steps)` before warmup and
`max(0, (num_training_steps - current_step) / max(1, num_training_steps - num_warmup_steps))`
afterwards; the per-step learning rate is the base rate times this factor. -/

/-- The multiplicative learning-rate factor at global step `s` for a linear
warmup over `warmup` steps followed by linear decay to step `total`. -/
def lr_lambda (warmup total s : ℕ) : ℚ :=
  if s < warmup then (s : ℚ) / ((max 1 warmup : ℕ) : ℚ)
  else max 0 ((((total : ℤ) - (s : ℤ) : ℤ) : ℚ) /
      (((max 1 ((total : ℤ) - (warmup : ℤ)) : ℤ) : ℚ)))

/-- The learning rate at global step `s`: the configured peak rate scaled by
`lr_lambda`. -/
def lrate (peak : ℚ) (warmup total s : ℕ) : ℚ := peak * lr_lambda warmup total s

/-- `n` is a breakpoint of the step function `f` when the discrete second
difference at `n` is nonzero, i.e. `f` is not affine across `n-1, n, n+1`. -/
def breakpointAt (f : ℕ → ℚ) (n : ℕ) : Prop := f (n + 1) + f (n - 1) ≠ 2 * f n

/-! ## Batching

`DataLoader(dataset, batch_size=B, shuffle=...)` (`train.py` lines 125-137)
with the default `drop_last=False` walks the sampler's index sequence and
emits consecutive groups of `B` indices, the final group possibly shorter
but never dropped.  With `shuffle=False` the sampler is sequential
(`0, 1, ..., n-1`); with `shuffle=True` it is a fresh permutation of the
same indices each pass. -/

/-- Split a list into consecutive chunks of size `B` (the last chunk may be
shorter).  For `B ≥ 1` this is exactly the batch structure produced by a
`DataLoader` with `drop_last=False` over the sampler sequence `l`. -/
def chunkList (B : ℕ) : List α → List (List α)
  | [] => []
  | x :: xs => (x :: List.take (B - 1) xs) :: chunkList B (List.drop (B - 1) xs)
termination_by l => l.length
decreasing_by
  simp only [List.length_cons]
  exact Nat.lt_succ_of_le (List.length_drop (B - 1) xs ▸ Nat.sub_le _ _)

/-! ## Trainer (`IntentTrainer`, `train.py` lines 78-332)

The outcome of the opaque per-batch forward/backward computation is taken
as given data: each epoch supplies the list of per-batch loss values
(`outputs.loss.item()` for each batch of `train_loader`) and the validation
loss/accuracy returned by `validate`.  Everything the claims speak about —
history bookkeeping, the mean-loss computation, the scheduler step count,
and the early-stopping/checkpoint policy of lines 301-314 — is embedded
explicitly. -/

/-- The data an epoch's opaque numeric computation produces: the per-batch
training losses and the epoch's validation loss and accuracy. -/
structure EpochData where
  batchLosses : List ℚ
  valLoss : ℚ
  valAcc : ℚ
deriving Repr, DecidableEq

/-- Trainer configuration (`IntentTrainer.__init__`): the fields the
embedded loop reads.  `numBatches` is `len(self.train_loader)` and
`totalSteps` is computed once as `len(self.train_loader) * num_epochs`
(`train.py` line 147). -/
structure TConfig where
  numBatches : ℕ
  numEpochs : ℕ
  warmupSteps : ℕ
  learningRate : ℚ
  patience : ℕ
deriving Repr, DecidableEq

/-- `self.total_steps = len(self.train_loader) * num_epochs`, computed once
in `__init__` before training starts. -/
def TConfig.totalSteps (cfg : TConfig) : ℕ := cfg.numBatches * cfg.numEpochs

/-- The mutable trainer state threaded through the epoch loop: the four
history series, the best-validation-loss slot (`None` embeds the initial
`float('inf')`), the patience counter, the best-model slot (recorded as the
1-based epoch number at which the save statement ran; `None` embeds the
initial `None`), and the scheduler's global step count. -/
structure RunState where
  histTrain : List ℚ
  histVal : List ℚ
  histAcc : List ℚ
  histLR : List ℚ
  bestValLoss : Option ℚ
  patienceCounter : ℕ
  bestModelState : Option ℕ
  stepCount : ℕ
deriving Repr, DecidableEq

/-- The state at `IntentTrainer.__init__`: empty history, `best_val_loss =
float('inf')`, `patience_counter = 0`, `best_model_state = None`. -/
def initRun : RunState :=
  { histTrain := [], histVal := [], histAcc := [], histLR := [],
    bestValLoss := none, patienceCounter := 0, bestModelState := none,
    stepCount := 0 }

/-- `train_epoch` returns `total_loss / len(self.train_loader)`
(`train.py` line 222): the arithmetic mean of the per-batch losses. -/
def meanLoss (ls : List ℚ) : ℚ := ls.sum / (ls.length : ℚ)

/-- The comparison `val_loss < self.best_val_loss` of `train.py` line 302,
where `best_val_loss` starts at `float('inf')` (embedded as `none`). -/
def improves (x : ℚ) : Option ℚ → Bool
  | none => true
  | some b => decide (x < b)

/-- One iteration of the `for epoch in range(self.num_epochs)` body
(`train.py` lines 276-314): run `train_epoch` (its mean loss and one
scheduler step per batch), run `validate`, read `get_last_lr`, append the
four history entries, then apply the early-stopping check.  Returns the
updated state and the `break` flag of line 314. -/
def epochStep (cfg : TConfig) (e : EpochData) (s : RunState) : RunState × Bool :=
  let steps := s.stepCount + e.batchLosses.length
  let s1 : RunState :=
    { s with
      histTrain := s.histTrain ++ [meanLoss e.batchLosses]
      histVal := s.histVal ++ [e.valLoss]
      histAcc := s.histAcc ++ [e.valAcc]
      histLR := s.histLR ++ [lrate cfg.learningRate cfg.warmupSteps cfg.totalSteps steps]
      stepCount := steps }
  if improves e.valLoss s.bestValLoss then
    ({ s1 with
        bestValLoss := some e.valLoss
        patienceCounter := 0
        bestModelState := some s1.histVal.length }, false)
  else
    let pc := s.patienceCounter + 1
    ({ s1 with patienceCounter := pc }, decide (cfg.patience ≤ pc))

/-- The epoch loop of `IntentTrainer.train`: process each configured
epoch's data in order, stopping at the first `break`. -/
def runLoop (cfg : TConfig) : List EpochData → RunState → RunState
  | [], s => s
  | e :: rest, s =>
    let step := epochStep cfg e s
    if step.2 then step.1 else runLoop cfg rest step.1

/-- A whole training run over the given per-epoch data, from the freshly
initialized trainer state. -/
def trainRun (cfg : TConfig) (eds : List EpochData) : RunState :=
  runLoop cfg eds initRun

/-- Number of completed epochs of a run: the length of the validation-loss
history series (one record is appended per completed epoch). -/
def RunState.completedEpochs (s : RunState) : ℕ := s.histVal.length

/-- The sequence of `get_last_lr` readings an epoch sequence produces when
the scheduler starts at global step `sc`: each epoch advances the step
count by its batch count and reads the fixed schedule there. -/
def lrSeq (cfg : TConfig) : ℕ → List EpochData → List ℚ
  | _, [] => []
  | sc, e :: rest =>
    lrate cfg.learningRate cfg.warmupSteps cfg.totalSteps
        (sc + e.batchLosses.length) ::
      lrSeq cfg (sc + e.batchLosses.length) rest

/-! ## Weight heap and the best-checkpoint slot (`train.py` lines 301-322)

`self.best_model_state = self.classifier.model.state_dict().copy()`
(line 306): `state_dict()` returns a dict of tensors sharing storage with
the live parameters, and `OrderedDict.copy()` is a shallow copy — a new
dict holding the same tensor references.  `optimizer.step()` mutates the
parameter storage in place.  To reason about this, tensors are embedded as
heap cells addressed by indices: a dict of tensors is a list of cell
indices, and the parameter values are the cell contents. -/

/-- Read heap cell `r` (missing cells read as 0). -/
def readCell (h : List ℚ) (r : ℕ) : ℚ := h.getD r 0

/-- Write the values `vs` into the heap cells `rs` pointwise. -/
def writeCells (h : List ℚ) : List ℕ → List ℚ → List ℚ
  | r :: rs, v :: vs => writeCells (h.set r v) rs vs
  | _, _ => h

/-- The encoder model as seen by the trainer: a heap of tensor cells plus
the fixed locations of its parameter tensors. -/
structure PModel where
  heap : List ℚ
  paramRefs : List ℕ
deriving Repr, DecidableEq

/-- `model.state_dict()`: a dict of tensors that SHARE STORAGE with the
live parameters — embedded as the list of parameter cell indices. -/
def state_dict (m : PModel) : List ℕ := m.paramRefs

/-- `.copy()` on the state dict: a shallow `OrderedDict` copy — a fresh
dict containing the SAME tensor references. -/
def dictCopy (d : List ℕ) : List ℕ := d

/-- The net effect of one epoch's `optimizer.step()` calls on the
parameters: in-place writes of the new values into the parameter cells. -/
def optimizerWrite (m : PModel) (vs : List ℚ) : PModel :=
  { m with heap := writeCells m.heap m.paramRefs vs }

/-- `model.load_state_dict(d)`: copy the value held by each of the dict's
tensors into the corresponding parameter cell. -/
def load_state_dict (m : PModel) (d : List ℕ) : PModel :=
  { m with heap := writeCells m.heap m.paramRefs (d.map (readCell m.heap)) }

/-- The current parameter values of the model. -/
def readParams (m : PModel) : List ℚ := m.paramRefs.map (readCell m.heap)

/-- Trainer state for the heap-level run: the model, the early-stopping
bookkeeping, the saved `best_model_state` dict, and the validation-loss
history. -/
structure HeapRunState where
  model : PModel
  bestValLoss : Option ℚ
  patienceCounter : ℕ
  bestModelState : Option (List ℕ)
  histVal : List ℚ
deriving Repr, DecidableEq

/-- One epoch at the heap level: `train_epoch` leaves the parameters at the
values `w` (in-place optimizer writes), `validate` measures the validation
loss `vl` of the current weights, then lines 301-314 run the checkpoint /
early-stopping policy, saving `state_dict().copy()` on strict improvement.
Returns the updated state and the `break` flag. -/
def heapEpoch (patience : ℕ) (vl : List ℚ → ℚ) (w : List ℚ)
    (s : HeapRunState) : HeapRunState × Bool :=
  let m := optimizerWrite s.model w
  let v := vl (readParams m)
  let s1 : HeapRunState := { s with model := m, histVal := s.histVal ++ [v] }
  if improves v s.bestValLoss then
    ({ s1 with
        bestValLoss := some v
        patienceCounter := 0
        bestModelState := some (dictCopy (state_dict m)) }, false)
  else
    let pc := s.patienceCounter + 1
    ({ s1 with patienceCounter := pc }, decide (patience ≤ pc))

/-- The heap-level epoch loop over the per-epoch weight values. -/
def heapLoop (patience : ℕ) (vl : List ℚ → ℚ) :
    List (List ℚ) → HeapRunState → HeapRunState
  | [], s => s
  | w :: rest, s =>
    let step := heapEpoch patience vl w s
    if step.2 then step.1 else heapLoop patience vl rest step.1

/-- A full heap-level training run from initial model `m0`. -/
def heapRun (patience : ℕ) (vl : List ℚ → ℚ) (m0 : PModel)
    (ws : List (List ℚ)) : HeapRunState :=
  heapLoop patience vl ws
    { model := m0, bestValLoss := none, patienceCounter := 0,
      bestModelState := none, histVal := [] }

/-- Lines 316-322: if a best state was saved, `load_state_dict` it; the
model that results is what `save_model` persists. -/
def finishRun (s : HeapRunState) : PModel :=
  match s.bestModelState with
  | some d => load_state_dict s.model d
  | none => s.model

/-! ## Validation (`IntentTrainer.validate`, `train.py` lines 224-262)

The validation loader is the unshuffled `DataLoader` over the validation
set, so its batches are `chunkList B` of the examples in dataset order.
Each example is embedded as its logits vector together with its label id;
the per-batch loss produced by the model's forward pass is abstracted as a
function of the batch. -/

/-- `torch.argmax` over a logits vector: index of the first maximal
entry. -/
def argmaxIdx (l : List ℚ) : ℕ :=
  (List.range l.length).foldl
    (fun best i => if l.getD best 0 < l.getD i 0 then i else best) 0

/-- A validation example: the logits the model produces for it and its true
label id. -/
structure ValExample where
  logits : List ℚ
  label : ℕ
deriving Repr, DecidableEq

/-- Whether the example is predicted correctly:
`argmax(logits) == label`. -/
def correctPred (e : ValExample) : Bool := decide (argmaxIdx e.logits = e.label)

/-- `validate`: iterate the unshuffled validation batches accumulating
`total_loss`, `correct_predictions` and `total_predictions`, then return
`(total_loss / len(val_loader), correct / total)`. -/
def validateRun (B : ℕ) (lossOf : List ValExample → ℚ)
    (examples : List ValExample) : ℚ × ℚ :=
  let batches := chunkList B examples
  let totalLoss := (batches.map lossOf).sum
  let correct := (batches.map (fun b => b.countP correctPred)).sum
  let total := (batches.map List.length).sum
  (totalLoss / (batches.length : ℚ), (correct : ℚ) / (total : ℚ))

/-! ## Evaluator metrics (`IntentEvaluator.evaluate_predictions`,
`evaluate.py` lines 87-121)

`accuracy_score`, `precision_score`/`recall_score`/`f1_score` with
`zero_division=0`, and `confusion_matrix(labels=...)` are the scikit-learn
calls of lines 88-105; their semantics on label lists are embedded
directly: counts over the zipped (true, predicted) pairs, with `0`
substituted whenever a ratio's denominator is zero. -/

/-- Number of evaluated examples whose true label is `a` and predicted
label is `b`. -/
def countPairs (t p : List String) (a b : String) : ℕ :=
  (t.zip p).countP (fun x => decide (x.1 = a ∧ x.2 = b))

/-- `confusion_matrix(true, pred, labels=labels)`: rows indexed by true
label, columns by predicted label, both in the order of `labels`. -/
def confusionMatrix (labels t p : List String) : List (List ℕ) :=
  labels.map (fun a => labels.map (fun b => countPairs t p a b))

/-- `accuracy_score`: fraction of positions where prediction equals the
true label. -/
def accuracy_score (t p : List String) : ℚ :=
  (((t.zip p).countP (fun x => decide (x.1 = x.2)) : ℕ) : ℚ) / (t.length : ℚ)

/-- Per-class precision with `zero_division=0`: among examples predicted as
`c`, the fraction whose true label is `c`; `0` when `c` is never
predicted. -/
def precisionC (t p : List String) (c : String) : ℚ :=
  if p.count c = 0 then 0 else (countPairs t p c c : ℚ) / (p.count c : ℚ)

/-- Per-class recall with `zero_division=0`: among examples whose true
label is `c`, the fraction predicted as `c`; `0` when `c` has no true
members. -/
def recallC (t p : List String) (c : String) : ℚ :=
  if t.count c = 0 then 0 else (countPairs t p c c : ℚ) / (t.count c : ℚ)

/-- Per-class F1 with `zero_division=0`: harmonic mean of precision and
recall, `0` when both are `0`. -/
def f1C (t p : List String) (c : String) : ℚ :=
  let pr := precisionC t p c
  let rc := recallC t p c
  if pr + rc = 0 then 0 else 2 * pr * rc / (pr + rc)

/-- Lexicographic code-point comparison of character sequences: the string
order Python and numpy use when sorting label arrays. -/
def charListLeB : List Char → List Char → Bool
  | [], _ => true
  | _ :: _, [] => false
  | c :: cs, d :: ds =>
    if c.toNat < d.toNat then true
    else if d.toNat < c.toNat then false
    else charListLeB cs ds

/-- `a ≤ b` on strings in code-point order. -/
def strLeB (a b : String) : Bool := charListLeB a.data b.data

/-- Insert an element into a sorted list, keeping it sorted. -/
def insertSortedB {α : Type} (le : α → α → Bool) (a : α) : List α → List α
  | [] => [a]
  | b :: bs => if le a b then a :: b :: bs else b :: insertSortedB le a bs

/-- Insertion sort by `le`; on duplicate-free input under a total order it
produces the unique sorted arrangement, i.e. numpy's sorted output. -/
def sortByB {α : Type} (le : α → α → Bool) : List α → List α
  | [] => []
  | a :: as => insertSortedB le a (sortByB le as)

/-- `unique_labels(y_true, y_pred)`: the sorted set of labels occurring in
either argument — what scikit-learn computes when `classification_report`
is called with `labels` left at its default `None`. -/
def uniqueLabels (t p : List String) : List String :=
  sortByB strLeB ((t ++ p).dedup)

/-- The error `classification_report` raises when the inferred label set
does not match the size of `target_names`. -/
inductive ReportError where
  | valueError
deriving Repr, DecidableEq

/-- `classification_report(true, pred, target_names=..., output_dict=True,
zero_division=0)` as called at `evaluate.py` lines 94-99 — with `labels`
left at its default `None`: the label set is inferred as
`unique_labels(y_true, y_pred)`; when its size differs from
`len(target_names)`, scikit-learn raises `ValueError` ("Number of classes
... does not match size of target_names ... Try specifying the labels
parameter"); otherwise the report rows zip `target_names` positionally
onto the inferred (alphabetically sorted) labels, each row carrying that
label's precision, recall, F1 (`zero_division=0`) and support. -/
def classification_report (target_names t p : List String) :
    Except ReportError (List (String × ℚ × ℚ × ℚ × ℕ)) :=
  let labels := uniqueLabels t p
  if labels.length = target_names.length then
    Except.ok ((target_names.zip labels).map
      (fun nl => (nl.1, precisionC t p nl.2, recallC t p nl.2, f1C t p nl.2,
        t.count nl.2)))
  else Except.error ReportError.valueError

/-! ## Error analysis (`IntentEvaluator.analyze_errors`, `evaluate.py`
lines 273-339) -/

/-- One evaluated example as stored in `self.results`: its text, true
label, predicted label and the per-class probability dict. -/
structure PredRecord where
  text : String
  trueIntent : String
  predIntent : String
  probs : List (String × ℚ)
deriving Repr, DecidableEq

/-- Dict read `probs[c]` (absent keys read as 0). -/
def probOf (ps : List (String × ℚ)) (c : String) : ℚ := (ps.lookup c).getD 0

/-- One entry of the error list built at lines 299-307. -/
structure ErrRec where
  text : String
  trueIntent : String
  predIntent : String
  predConf : ℚ
  trueConf : ℚ
  confDiff : ℚ
deriving Repr, DecidableEq

/-- The record appended for a misclassified example: the prediction's
confidence, the true class's confidence, and their difference. -/
def mkErr (r : PredRecord) : ErrRec :=
  { text := r.text
    trueIntent := r.trueIntent
    predIntent := r.predIntent
    predConf := probOf r.probs r.predIntent
    trueConf := probOf r.probs r.trueIntent
    confDiff := probOf r.probs r.predIntent - probOf r.probs r.trueIntent }

/-- Lines 288-307: collect an `ErrRec` for exactly the examples where the
true and predicted labels differ, in dataset order. -/
def errorsOf (rs : List PredRecord) : List ErrRec :=
  (rs.filter (fun r => decide (r.trueIntent ≠ r.predIntent))).map mkErr

/-- Line 310: `errors.sort(key=predicted_confidence, reverse=True)` — a
stable sort descending by the predicted-class confidence. -/
def sortErrors (es : List ErrRec) : List ErrRec :=
  es.mergeSort (fun a b => decide (b.predConf ≤ a.predConf))

/-- The `true -> predicted` pattern of an error. -/
def errPattern (e : ErrRec) : String × String := (e.trueIntent, e.predIntent)

/-- One dict update
`error_patterns[pat] = error_patterns.get(pat, 0) + 1`: bump the count of
`pat` in the association list, appending a fresh entry on first sight. -/
def bumpPattern : List ((String × String) × ℕ) → String × String →
    List ((String × String) × ℕ)
  | [], pat => [(pat, 1)]
  | (q, n) :: rest, pat =>
    if q = pat then (q, n + 1) :: rest else (q, n) :: bumpPattern rest pat

/-- Lines 324-327: aggregate the `(true -> predicted)` pattern counts over
the error list. -/
def patternCounts (es : List ErrRec) : List ((String × String) × ℕ) :=
  es.foldl (fun acc e => bumpPattern acc (errPattern e)) []

/-- Line 331: the reported pattern list,
`sorted(error_patterns.items(), key=count, reverse=True)` — descending by
frequency. -/
def sortPatterns (pats : List ((String × String) × ℕ)) :
    List ((String × String) × ℕ) :=
  pats.mergeSort (fun a b => decide (b.2 ≤ a.2))

/-! ## Dataset construction (`IntentDataset`, `train.py` lines 39-75)

`IntentDataset.__init__` eagerly calls the classifier's `tokenize_texts`
and `encode_labels` (lines 62-63).  Those two methods live in
`models/roberta_classifier.py`, which is not present under `src/`; they are
modelled from the spec below. -/

/-- The error taxonomy entry the spec names for bad labels. -/
inductive DataError where
  | encodingError
deriving Repr, DecidableEq

/-- Modelled from the spec: `RoBERTaIntentClassifier.encode_labels`
(missing `models/roberta_classifier.py`) maps each label to its dense id
in the fixed intent set; "each label drawn from the fixed intent set; any
other value triggers EncodingError". -/
def encode_labels (intentSet : List String) : List String → Except DataError (List ℕ)
  | [] => Except.ok []
  | l :: ls =>
    if l ∈ intentSet then
      match encode_labels intentSet ls with
      | Except.ok ids => Except.ok (intentSet.indexOf l :: ids)
      | Except.error e => Except.error e
    else Except.error DataError.encodingError

/-- Modelled from the spec: the tokenizer collaborator
`tokenize(texts, max_length)` (missing `models/roberta_classifier.py`)
maps each text to its (token-id sequence, attention-mask) pair; the
tokenizer itself is opaque, passed in as `tok`. -/
def tokenize_texts (tok : String → List ℕ × List ℕ) (texts : List String) :
    List (List ℕ × List ℕ) :=
  texts.map tok

/-- The constructed dataset: the raw inputs plus the eagerly computed
`encoded_data` and `label_ids` stored at construction time. -/
structure IntentDatasetL where
  texts : List String
  labels : List String
  encoded_data : List (List ℕ × List ℕ)
  label_ids : List ℕ
deriving Repr, DecidableEq

/-- `IntentDataset.__init__`: tokenize all texts and encode all labels up
front; fails whenever label encoding fails. -/
def mkIntentDataset (intentSet : List String) (tok : String → List ℕ × List ℕ)
    (texts labels : List String) : Except DataError IntentDatasetL :=
  match encode_labels intentSet labels with
  | Except.error e => Except.error e
  | Except.ok ids =>
    Except.ok
      { texts := texts, labels := labels,
        encoded_data := tokenize_texts tok texts, label_ids := ids }

/-- `__len__`: `len(self.texts)`. -/
def datasetLen (d : IntentDatasetL) : ℕ := d.texts.length

/-- `__getitem__`: read the stored `encoded_data` and `label_ids` at index
`idx` — no recomputation, only indexing into the stored lists. -/
def getItem (d : IntentDatasetL) (idx : ℕ) : (List ℕ × List ℕ) × ℕ :=
  (d.encoded_data.getD idx ([], []), d.label_ids.getD idx 0)

/-! ## Helper lemmas about chunking -/

theorem chunkList_nil (B : ℕ) : chunkList B ([] : List α) = [] := by
  simp [chunkList]

theorem chunkList_flatten (B : ℕ) (l : List α) : (chunkList B l).flatten = l := by
  induction l using chunkList.induct B with
  | case1 => simp [chunkList]
  | case2 x xs ih => simp [chunkList, ih]

theorem chunkList_eq_nil_iff (B : ℕ) (l : List α) :
    chunkList B l = [] ↔ l = [] := by
  cases l with
  | nil => simp [chunkList]
  | cons x xs => simp [chunkList]

theorem chunkList_length (B : ℕ) (hB : 0 < B) (l : List α) :
    (chunkList B l).length = (l.length + B - 1) / B := by
  induction l using chunkList.induct B with
  | case1 => simp [chunkList, Nat.div_eq_of_lt, Nat.sub_lt hB]
  | case2 x xs ih =>
    rw [chunkList, List.length_cons, ih, List.length_drop]
    simp only [List.length_cons]
    rcases Nat.lt_or_ge xs.length (B - 1) with h | h
    · have h1 : xs.length - (B - 1) = 0 := Nat.sub_eq_zero_of_le (Nat.le_of_lt h)
      have h2 : (0 + B - 1) / B = 0 := by
        rw [Nat.zero_add]
        exact Nat.div_eq_of_lt (Nat.sub_lt hB Nat.one_pos)
      have h3 : (xs.length + 1 + B - 1) / B = 1 := by
        apply Nat.div_eq_of_lt_le <;> omega
      rw [h1, h2, h3]
    · have h1 : xs.length - (B - 1) + B - 1 = xs.length := by omega
      have h2 : xs.length + 1 + B - 1 = xs.length + B := by omega
      rw [h1, h2, Nat.add_div_right _ hB]

theorem chunkList_size_bounds (B : ℕ) (hB : 0 < B) (l : List α) :
    ∀ c ∈ chunkList B l, 0 < c.length ∧ c.length ≤ B := by
  induction l using chunkList.induct B with
  | case1 => simp [chunkList]
  | case2 x xs ih =>
    intro c hc
    rw [chunkList, List.mem_cons] at hc
    rcases hc with rfl | hc
    · constructor
      · simp
      · have : (List.take (B - 1) xs).length ≤ B - 1 :=
          le_trans (List.length_take_le _ _) le_rfl
        simp only [List.length_cons]
        omega
    · exact ih c hc

theorem chunkList_dropLast_length (B : ℕ) (hB : 0 < B) (l : List α) :
    ∀ c ∈ (chunkList B l).dropLast, c.length = B := by
  induction l using chunkList.induct B with
  | case1 => simp [chunkList]
  | case2 x xs ih =>
    intro c hc
    rw [chunkList] at hc
    rcases hrest : chunkList B (List.drop (B - 1) xs) with _ | ⟨r, rs⟩
    · rw [hrest] at hc
      simp at hc
    · rw [hrest] at hc
      rw [List.dropLast_cons_of_ne_nil (by simp)] at hc
      rcases List.mem_cons.mp hc with rfl | hc
      · have hne : List.drop (B - 1) xs ≠ [] := by
          intro hdrop
          rw [hdrop, chunkList_nil] at hrest
          exact List.cons_ne_nil r rs hrest.symm
        have hlen : B - 1 ≤ xs.length := by
          by_contra hcon
          exact hne (List.drop_eq_nil_of_le (Nat.le_of_not_le hcon))
        simp only [List.length_cons, List.length_take]
        omega
      · exact ih c (hrest ▸ hc)

/-- C4: for a dataset of `n` examples and batch size `B`, the batch
scheduler yields `⌈n/B⌉` batches, each of size `B` except a possibly
shorter (never dropped) final batch; without shuffling, concatenating the
batches reconstructs the dataset order exactly; with shuffling, one full
pass over a fresh permutation covers the index set `0..n-1` exactly once;
and 14 examples with batch size 4 give exactly 4 batches of sizes
4, 4, 4, 2. -/
theorem batchScheduler_C4 {α : Type} (B n : ℕ) (hB : 0 < B) (l : List α)
    (perm : List ℕ) (hperm : perm.Perm (List.range n)) :
    (chunkList B l).length = (l.length + B - 1) / B ∧
    (∀ c ∈ chunkList B l, 0 < c.length ∧ c.length ≤ B) ∧
    (∀ c ∈ (chunkList B l).dropLast, c.length = B) ∧
    (chunkList B l).flatten = l ∧
    ((chunkList B perm).flatten).Perm (List.range n) ∧
    (chunkList 4 (List.range 14)).map List.length = [4, 4, 4, 2] := by
  refine ⟨chunkList_length B hB l, chunkList_size_bounds B hB l,
    chunkList_dropLast_length B hB l, chunkList_flatten B l, ?_, ?_⟩
  · rw [chunkList_flatten]
    exact hperm
  · simp [chunkList, List.range_succ]

/-- Witness for C4 at `B = 4`, `n = 14`, the identity permutation. -/
theorem batchScheduler_C4_witness :
    (chunkList 4 (List.range 14)).length = 4 ∧
    (chunkList 4 (List.range 14)).flatten = List.range 14 := by
  have h := batchScheduler_C4 4 14 (by decide) (List.range 14) (List.range 14)
    (List.Perm.refl _)
  refine ⟨?_, h.2.2.2.1⟩
  rw [h.1]
  decide

/-- C1: after validating an epoch, the trainer runs the save statement for
the best-model slot and resets the patience counter to 0 exactly when the
epoch's validation loss is strictly below the best seen so far; otherwise
the slot and the best loss are untouched, the patience counter is
incremented, and the run breaks exactly when the incremented counter
reaches `early_stopping_patience`, skipping all remaining configured
epochs.  A validation loss equal to the best-so-far counts as
non-improvement. -/
theorem earlyStopping_C1 (cfg : TConfig) (e : EpochData) (s : RunState)
    (rest : List EpochData) :
    (improves e.valLoss s.bestValLoss = true →
      (epochStep cfg e s).1.bestModelState = some (s.histVal.length + 1) ∧
      (epochStep cfg e s).1.patienceCounter = 0 ∧
      (epochStep cfg e s).1.bestValLoss = some e.valLoss ∧
      (epochStep cfg e s).2 = false) ∧
    (improves e.valLoss s.bestValLoss = false →
      (epochStep cfg e s).1.bestModelState = s.bestModelState ∧
      (epochStep cfg e s).1.bestValLoss = s.bestValLoss ∧
      (epochStep cfg e s).1.patienceCounter = s.patienceCounter + 1 ∧
      ((epochStep cfg e s).2 = true ↔ cfg.patience ≤ s.patienceCounter + 1)) ∧
    (∀ b, s.bestValLoss = some b →
      (improves e.valLoss s.bestValLoss = true ↔ e.valLoss < b)) ∧
    (s.bestValLoss = some e.valLoss → improves e.valLoss s.bestValLoss = false) ∧
    ((epochStep cfg e s).2 = true →
      runLoop cfg (e :: rest) s = (epochStep cfg e s).1) := by
  refine ⟨?_, ?_, ?_, ?_, ?_⟩
  · intro h
    simp [epochStep, h]
  · intro h
    simp [epochStep, h]
  · intro b hb
    simp [improves, hb]
  · intro hb
    simp [improves, hb]
  · intro h
    simp [runLoop, h]

/-- Witness for C1: a first epoch (best-so-far `∞`) improves and saves, a
tying second epoch does not save and, with `early_stopping_patience = 1`,
stops. -/
theorem earlyStopping_C1_witness :
    (epochStep ⟨1, 2, 0, 1, 1⟩ ⟨[1], 5, 1⟩ initRun).1.bestModelState = some 1 ∧
    (epochStep ⟨1, 2, 0, 1, 1⟩ ⟨[1], 5, 1⟩ initRun).1.patienceCounter = 0 ∧
    improves 5 (some 5) = false ∧
    ((epochStep ⟨1, 2, 0, 1, 1⟩ ⟨[1], 5, 1⟩
        { initRun with bestValLoss := some 5 }).2 = true ↔
      (1 : ℕ) ≤ 0 + 1) := by
  have h1 := earlyStopping_C1 ⟨1, 2, 0, 1, 1⟩ ⟨[1], 5, 1⟩ initRun []
  have h2 := earlyStopping_C1 ⟨1, 2, 0, 1, 1⟩ ⟨[1], 5, 1⟩
    { initRun with bestValLoss := some 5 } []
  exact ⟨(h1.1 rfl).1, (h1.1 rfl).2.1, h2.2.2.2.1 rfl,
    (h2.2.1 (h2.2.2.2.1 rfl)).2.2.2⟩

/-- C2 (code bug exhibit): run two epochs with `early_stopping_patience =
3`; the optimizer leaves the single weight cell at `1` after epoch 1 and
`2` after epoch 2, and the validation loss of weights `w` is `w[0]`.
Epoch 1 is the strict best (losses `1` then `2`), so the claim says the
persisted final model is epoch 1's snapshot with validation loss `1`, `≤`
every epoch's loss.  Instead: the saved `best_model_state` produced by
`state_dict().copy()` (`train.py` line 306) is a dict of references
(`[0]`, the parameter's cell index) whose underlying cell `optimizer.step`
keeps mutating, so `load_state_dict` at line 318 restores the FINAL
weights `[2]`, and the persisted model's validation loss is `2 > 1`. -/
theorem checkpointAlias_C2_bug :
    (heapRun 3 (fun w => w.getD 0 0) ⟨[0], [0]⟩ [[1], [2]]).histVal = [1, 2] ∧
    (heapRun 3 (fun w => w.getD 0 0) ⟨[0], [0]⟩ [[1], [2]]).bestModelState =
      some [0] ∧
    readParams
      (finishRun (heapRun 3 (fun w => w.getD 0 0) ⟨[0], [0]⟩ [[1], [2]])) =
      [2] ∧
    ¬ (readParams
        (finishRun
          (heapRun 3 (fun w => w.getD 0 0) ⟨[0], [0]⟩ [[1], [2]]))).getD 0 0 ≤
      1 := by
  refine ⟨rfl, rfl, rfl, ?_⟩
  norm_num [heapRun, heapLoop, heapEpoch, finishRun, readParams, readCell,
    load_state_dict, optimizerWrite, writeCells, state_dict, dictCopy,
    improves]

/-! ## Run-level history characterization -/

theorem epochStep_fields (cfg : TConfig) (e : EpochData) (s : RunState) :
    (epochStep cfg e s).1.histTrain = s.histTrain ++ [meanLoss e.batchLosses] ∧
    (epochStep cfg e s).1.histVal = s.histVal ++ [e.valLoss] ∧
    (epochStep cfg e s).1.histAcc = s.histAcc ++ [e.valAcc] ∧
    (epochStep cfg e s).1.histLR = s.histLR ++
      [lrate cfg.learningRate cfg.warmupSteps cfg.totalSteps
        (s.stepCount + e.batchLosses.length)] ∧
    (epochStep cfg e s).1.stepCount = s.stepCount + e.batchLosses.length := by
  by_cases h : improves e.valLoss s.bestValLoss <;> simp [epochStep, h]

theorem runLoop_spec (cfg : TConfig) (eds : List EpochData) :
    ∀ (s : RunState),
    ∃ k, k ≤ eds.length ∧
      (runLoop cfg eds s).histTrain =
        s.histTrain ++ (eds.take k).map (fun e => meanLoss e.batchLosses) ∧
      (runLoop cfg eds s).histVal =
        s.histVal ++ (eds.take k).map EpochData.valLoss ∧
      (runLoop cfg eds s).histAcc =
        s.histAcc ++ (eds.take k).map EpochData.valAcc ∧
      (runLoop cfg eds s).histLR =
        s.histLR ++ lrSeq cfg s.stepCount (eds.take k) := by
  induction eds with
  | nil =>
    intro s
    exact ⟨0, by simp [runLoop, lrSeq]⟩
  | cons e rest ih =>
    intro s
    obtain ⟨f1, f2, f3, f4, f5⟩ := epochStep_fields cfg e s
    by_cases hstop : (epochStep cfg e s).2 = true
    · have hrun : runLoop cfg (e :: rest) s = (epochStep cfg e s).1 := by
        simp [runLoop, hstop]
      exact ⟨1, by simp, by simp [hrun, f1, lrSeq, f2, f3, f4]⟩
    · have hrun : runLoop cfg (e :: rest) s = runLoop cfg rest (epochStep cfg e s).1 := by
        simp [runLoop, hstop]
      obtain ⟨k, hk, h1, h2, h3, h4⟩ := ih (epochStep cfg e s).1
      refine ⟨k + 1, by simpa using Nat.succ_le_succ hk, ?_, ?_, ?_, ?_⟩
      · rw [hrun, h1, f1]
        simp [List.take_succ_cons]
      · rw [hrun, h2, f2]
        simp [List.take_succ_cons]
      · rw [hrun, h3, f3]
        simp [List.take_succ_cons]
      · rw [hrun, h4, f4, f5]
        simp [List.take_succ_cons, lrSeq]

theorem lrSeq_length (cfg : TConfig) (sc : ℕ) (eds : List EpochData) :
    (lrSeq cfg sc eds).length = eds.length := by
  induction eds generalizing sc with
  | nil => simp [lrSeq]
  | cons e rest ih => simp [lrSeq, ih]

theorem getD_map_take {β : Type} (f : EpochData → β) (dβ : β)
    (eds : List EpochData) (k i : ℕ) (hi : i < k) (hik : i < eds.length) :
    ((eds.take k).map f).getD i dβ = f (eds.getD i ⟨[], 0, 0⟩) := by
  have h : i < (eds.take k).length := by
    simp only [List.length_take]
    omega
  rw [List.getD_eq_getElem?_getD, List.getElem?_map,
    List.getElem?_eq_getElem h, List.getElem_take,
    List.getD_eq_getElem?_getD, List.getElem?_eq_getElem hik]
  simp

/-- C10: the training history is one record per completed epoch — after a
run completing `E` epochs (by exhausting the configured epochs or by early
stopping) all four series have exactly `E` entries, and the `i`-th record
holds epoch `i`'s train loss (the arithmetic mean of its per-batch
losses), validation loss and validation accuracy. -/
theorem history_C10 (cfg : TConfig) (eds : List EpochData) :
    (trainRun cfg eds).histTrain.length = (trainRun cfg eds).completedEpochs ∧
    (trainRun cfg eds).histAcc.length = (trainRun cfg eds).completedEpochs ∧
    (trainRun cfg eds).histLR.length = (trainRun cfg eds).completedEpochs ∧
    (trainRun cfg eds).completedEpochs ≤ eds.length ∧
    ∀ i < (trainRun cfg eds).completedEpochs,
      (trainRun cfg eds).histTrain.getD i 0 =
        meanLoss ((eds.getD i ⟨[], 0, 0⟩).batchLosses) ∧
      (trainRun cfg eds).histVal.getD i 0 = (eds.getD i ⟨[], 0, 0⟩).valLoss ∧
      (trainRun cfg eds).histAcc.getD i 0 = (eds.getD i ⟨[], 0, 0⟩).valAcc := by
  obtain ⟨k, hk, h1, h2, h3, h4⟩ := runLoop_spec cfg eds initRun
  have hTR : trainRun cfg eds = runLoop cfg eds initRun := rfl
  have hE : (trainRun cfg eds).completedEpochs = k := by
    show (trainRun cfg eds).histVal.length = k
    rw [hTR, h2]
    simp [initRun, List.length_take, Nat.min_eq_left hk]
  refine ⟨?_, ?_, ?_, ?_, ?_⟩
  · rw [hE, hTR, h1]
    simp [initRun, List.length_take, Nat.min_eq_left hk]
  · rw [hE, hTR, h3]
    simp [initRun, List.length_take, Nat.min_eq_left hk]
  · rw [hE, hTR, h4]
    simp [initRun, lrSeq_length, List.length_take, Nat.min_eq_left hk]
  · rw [hE]
    exact hk
  · intro i hi
    rw [hE] at hi
    have hik : i < eds.length := lt_of_lt_of_le hi hk
    refine ⟨?_, ?_, ?_⟩
    · rw [hTR, h1]
      simp only [initRun, List.nil_append]
      exact getD_map_take _ 0 eds k i hi hik
    · rw [hTR, h2]
      simp only [initRun, List.nil_append]
      exact getD_map_take _ 0 eds k i hi hik
    · rw [hTR, h3]
      simp only [initRun, List.nil_append]
      exact getD_map_take _ 0 eds k i hi hik

/-- Witness for C10: a two-epoch run (no early stop triggered with
patience 2) has histories of length 2 matching the epoch data. -/
theorem history_C10_witness :
    (trainRun ⟨1, 2, 0, 1, 2⟩ [⟨[2, 4], 5, 1⟩, ⟨[6], 7, 0⟩]).histTrain.length =
      (trainRun ⟨1, 2, 0, 1, 2⟩ [⟨[2, 4], 5, 1⟩, ⟨[6], 7, 0⟩]).completedEpochs ∧
    (trainRun ⟨1, 2, 0, 1, 2⟩ [⟨[2, 4], 5, 1⟩, ⟨[6], 7, 0⟩]).histVal.getD 0 0 =
      5 := by
  have h := history_C10 ⟨1, 2, 0, 1, 2⟩ [⟨[2, 4], 5, 1⟩, ⟨[6], 7, 0⟩]
  have hE : (trainRun ⟨1, 2, 0, 1, 2⟩
      [⟨[2, 4], 5, 1⟩, ⟨[6], 7, 0⟩]).completedEpochs = 2 := by decide
  refine ⟨h.1, ?_⟩
  have := (h.2.2.2.2 0 (by rw [hE]; decide)).2.1
  simpa using this

/-! ## Schedule shape lemmas -/

theorem lr_lambda_warmup (w T : ℕ) (hw : 0 < w) (hwT : w < T) (s : ℕ)
    (hs : s ≤ w) : lr_lambda w T s = (s : ℚ) / (w : ℚ) := by
  rcases Nat.lt_or_ge s w with h | h
  · rw [lr_lambda, if_pos h, Nat.max_eq_right hw]
  · have hsw : s = w := le_antisymm hs h
    subst hsw
    rw [lr_lambda, if_neg (lt_irrefl s)]
    have h1 : max 1 ((T : ℤ) - (s : ℤ)) = (T : ℤ) - (s : ℤ) :=
      max_eq_right (by omega)
    rw [h1]
    have h2 : ((((T : ℤ) - (s : ℤ)) : ℤ) : ℚ) ≠ 0 := by
      have hz : (0 : ℤ) < (T : ℤ) - (s : ℤ) := by omega
      exact_mod_cast hz.ne'
    have h3 : ((s : ℕ) : ℚ) ≠ 0 := by
      exact_mod_cast hw.ne'
    rw [div_self h2, div_self h3, max_eq_right zero_le_one]

theorem lr_lambda_decay (w T : ℕ) (hwT : w < T) (s : ℕ) (hws : w ≤ s)
    (hsT : s ≤ T) : lr_lambda w T s = ((T : ℚ) - s) / ((T : ℚ) - w) := by
  rw [lr_lambda, if_neg (Nat.not_lt.mpr hws)]
  have h1 : max 1 ((T : ℤ) - (w : ℤ)) = (T : ℤ) - (w : ℤ) :=
    max_eq_right (by omega)
  rw [h1]
  have hnum : (0 : ℚ) ≤ ((((T : ℤ) - (s : ℤ)) : ℤ) : ℚ) := by
    have hz : (0 : ℤ) ≤ (T : ℤ) - (s : ℤ) := by omega
    exact_mod_cast hz
  have hden : (0 : ℚ) < ((((T : ℤ) - (w : ℤ)) : ℤ) : ℚ) := by
    have hz : (0 : ℤ) < (T : ℤ) - (w : ℤ) := by omega
    exact_mod_cast hz
  rw [max_eq_right (div_nonneg hnum (le_of_lt hden))]
  push_cast
  ring

theorem lrate_no_break_lt (peak : ℚ) (w T : ℕ) (hw : 0 < w) (hwT : w < T)
    (n : ℕ) (h0 : 0 < n) (hnw : n < w) :
    ¬ breakpointAt (lrate peak w T) n := by
  simp only [breakpointAt, ne_eq, not_not, lrate]
  rw [lr_lambda_warmup w T hw hwT (n + 1) (by omega),
    lr_lambda_warmup w T hw hwT (n - 1) (by omega),
    lr_lambda_warmup w T hw hwT n (by omega)]
  have hc : ((n - 1 : ℕ) : ℚ) = (n : ℚ) - 1 := by
    have := Nat.cast_sub (R := ℚ) h0
    simpa using this
  rw [hc]
  push_cast
  ring

theorem lrate_no_break_gt (peak : ℚ) (w T : ℕ) (hwT : w < T) (n : ℕ)
    (hwn : w < n) (hnT : n < T) : ¬ breakpointAt (lrate peak w T) n := by
  simp only [breakpointAt, ne_eq, not_not, lrate]
  rw [lr_lambda_decay w T hwT (n + 1) (by omega) (by omega),
    lr_lambda_decay w T hwT (n - 1) (by omega) (by omega),
    lr_lambda_decay w T hwT n (by omega) (by omega)]
  have hc : ((n - 1 : ℕ) : ℚ) = (n : ℚ) - 1 := by
    have := Nat.cast_sub (R := ℚ) (by omega : 1 ≤ n)
    simpa using this
  rw [hc]
  push_cast
  ring

theorem lrate_break_at_warmup (peak : ℚ) (w T : ℕ) (hw : 0 < w)
    (hwT : w < T) (hpk : 0 < peak) : breakpointAt (lrate peak w T) w := by
  have hwq : (0 : ℚ) < (w : ℚ) := by exact_mod_cast hw
  have hTw : (0 : ℚ) < (T : ℚ) - (w : ℚ) := by
    have : (w : ℚ) < (T : ℚ) := by exact_mod_cast hwT
    linarith
  have hp1 : lrate peak w T (w + 1) =
      peak * (((T : ℚ) - ((w : ℚ) + 1)) / ((T : ℚ) - w)) := by
    rw [lrate, lr_lambda_decay w T hwT (w + 1) (by omega) (by omega)]
    push_cast
    ring_nf
  have hm1 : lrate peak w T (w - 1) = peak * (((w : ℚ) - 1) / (w : ℚ)) := by
    rw [lrate, lr_lambda_warmup w T hw hwT (w - 1) (by omega)]
    have hc : ((w - 1 : ℕ) : ℚ) = (w : ℚ) - 1 := by
      have := Nat.cast_sub (R := ℚ) hw
      simpa using this
    rw [hc]
  have hat : lrate peak w T w = peak := by
    rw [lrate, lr_lambda_warmup w T hw hwT w le_rfl, div_self (ne_of_gt hwq),
      mul_one]
  have hb1 : ((T : ℚ) - ((w : ℚ) + 1)) / ((T : ℚ) - w) < 1 := by
    rw [div_lt_one hTw]
    linarith
  have hb2 : ((w : ℚ) - 1) / (w : ℚ) < 1 := by
    rw [div_lt_one hwq]
    linarith
  have hlt : lrate peak w T (w + 1) + lrate peak w T (w - 1) <
      2 * lrate peak w T w := by
    rw [hp1, hm1, hat]
    have b1 := mul_lt_mul_of_pos_left hb1 hpk
    have b2 := mul_lt_mul_of_pos_left hb2 hpk
    linarith
  exact ne_of_lt hlt

theorem lrSeq_uniform (cfg : TConfig) (eds : List EpochData)
    (hunif : ∀ e ∈ eds, e.batchLosses.length = cfg.numBatches) :
    ∀ (sc i : ℕ), i < eds.length →
      (lrSeq cfg sc eds).getD i 0 =
        lrate cfg.learningRate cfg.warmupSteps cfg.totalSteps
          (sc + (i + 1) * cfg.numBatches) := by
  induction eds with
  | nil => simp
  | cons e rest ih =>
    intro sc i hi
    have he : e.batchLosses.length = cfg.numBatches :=
      hunif e (List.mem_cons_self e rest)
    cases i with
    | zero => simp [lrSeq, he]
    | succ n =>
      have hrest : ∀ e' ∈ rest, e'.batchLosses.length = cfg.numBatches :=
        fun e' he' => hunif e' (List.mem_cons_of_mem e he')
      have := ih hrest (sc + e.batchLosses.length) n
        (by simpa using Nat.lt_of_succ_lt_succ hi)
      rw [lrSeq, List.getD_cons_succ, this, he]
      congr 1
      ring

/-- C3 counterexample: the claim quantifies over every configuration, but
with the trainer's default `warmup_steps = 0` (and, say, peak rate 1 and
6 total steps) the schedule starts at the peak, `rate(0) = peak ≠ 0`; and
with peak rate 0 the schedule is constantly zero, so there is no interior
breakpoint at `warmup_steps` at all. -/
theorem schedule_C3_counterexample :
    lrate 1 0 6 0 = 1 ∧ ¬ lrate 1 0 6 0 = 0 ∧
      ¬ breakpointAt (lrate 0 2 6) 2 := by
  refine ⟨by norm_num [lrate, lr_lambda], by norm_num [lrate, lr_lambda], ?_⟩
  simp [breakpointAt, lrate]

/-- C3 (amended): for every configuration with `0 < warmup_steps <
total_steps` and a positive peak rate, the learning rate is a deterministic
function of the global step count with `rate(0) = 0`,
`rate(warmup_steps) = peak`, `rate(total_steps) = 0`, linear on each of the
two segments with exactly one interior breakpoint at `warmup_steps`; and
`total_steps = (batches per epoch) × (configured epoch count)` is computed
once before training, so an early-stopped run reads the same fixed curve at
each recorded epoch as a full run would (a truncated prefix, never
recomputed). -/
theorem schedule_C3_amended (cfg : TConfig) (hw : 0 < cfg.warmupSteps)
    (hwT : cfg.warmupSteps < cfg.totalSteps) (hpk : 0 < cfg.learningRate) :
    cfg.totalSteps = cfg.numBatches * cfg.numEpochs ∧
    lrate cfg.learningRate cfg.warmupSteps cfg.totalSteps 0 = 0 ∧
    lrate cfg.learningRate cfg.warmupSteps cfg.totalSteps cfg.warmupSteps =
      cfg.learningRate ∧
    lrate cfg.learningRate cfg.warmupSteps cfg.totalSteps cfg.totalSteps = 0 ∧
    (∀ s ≤ cfg.warmupSteps,
      lrate cfg.learningRate cfg.warmupSteps cfg.totalSteps s =
        cfg.learningRate * ((s : ℚ) / (cfg.warmupSteps : ℚ))) ∧
    (∀ s, cfg.warmupSteps ≤ s → s ≤ cfg.totalSteps →
      lrate cfg.learningRate cfg.warmupSteps cfg.totalSteps s =
        cfg.learningRate * (((cfg.totalSteps : ℚ) - s) /
          ((cfg.totalSteps : ℚ) - cfg.warmupSteps))) ∧
    (∀ n, 0 < n → n < cfg.totalSteps →
      (breakpointAt (lrate cfg.learningRate cfg.warmupSteps cfg.totalSteps) n ↔
        n = cfg.warmupSteps)) ∧
    (∀ eds, (∀ e ∈ eds, e.batchLosses.length = cfg.numBatches) →
      ∀ i < (trainRun cfg eds).completedEpochs,
        (trainRun cfg eds).histLR.getD i 0 =
          lrate cfg.learningRate cfg.warmupSteps cfg.totalSteps
            ((i + 1) * cfg.numBatches)) := by
  have hwq : (0 : ℚ) < (cfg.warmupSteps : ℚ) := by exact_mod_cast hw
  refine ⟨rfl, ?_, ?_, ?_, ?_, ?_, ?_, ?_⟩
  · rw [lrate, lr_lambda_warmup _ _ hw hwT 0 (Nat.zero_le _)]
    simp
  · rw [lrate, lr_lambda_warmup _ _ hw hwT _ le_rfl,
      div_self (ne_of_gt hwq), mul_one]
  · rw [lrate, lr_lambda_decay _ _ hwT _ (le_of_lt hwT) le_rfl]
    simp
  · intro s hs
    rw [lrate, lr_lambda_warmup _ _ hw hwT s hs]
  · intro s hws hsT
    rw [lrate, lr_lambda_decay _ _ hwT s hws hsT]
  · intro n hn hnT
    constructor
    · intro hbp
      by_contra hne
      rcases Nat.lt_or_ge n cfg.warmupSteps with h | h
      · exact lrate_no_break_lt cfg.learningRate _ _ hw hwT n hn h hbp
      · have h2 : cfg.warmupSteps < n := lt_of_le_of_ne h (fun he => hne he.symm)
        exact lrate_no_break_gt cfg.learningRate _ _ hwT n h2 hnT hbp
    · intro hn2
      subst hn2
      exact lrate_break_at_warmup cfg.learningRate _ _ hw hwT hpk
  · intro eds hunif i hi
    obtain ⟨k, hk, h1, h2, h3, h4⟩ := runLoop_spec cfg eds initRun
    have hTR : trainRun cfg eds = runLoop cfg eds initRun := rfl
    have hE : (trainRun cfg eds).completedEpochs = k := by
      show (trainRun cfg eds).histVal.length = k
      rw [hTR, h2]
      simp [initRun, List.length_take, Nat.min_eq_left hk]
    rw [hE] at hi
    have hunif2 : ∀ e ∈ eds.take k, e.batchLosses.length = cfg.numBatches :=
      fun e he => hunif e (List.mem_of_mem_take he)
    have hlt : i < (eds.take k).length := by
      simp only [List.length_take]
      omega
    have := lrSeq_uniform cfg (eds.take k) hunif2 0 i hlt
    rw [hTR, h4]
    simp only [initRun, List.nil_append]
    rw [this, Nat.zero_add]

/-- Witness for C3 (amended) at batches-per-epoch 2, epochs 3, warmup 2,
peak rate 1: the schedule hits 0, peak and 0 at steps 0, 2 and 6. -/
theorem schedule_C3_amended_witness :
    lrate 1 2 6 0 = 0 ∧ lrate 1 2 6 2 = 1 ∧ lrate 1 2 6 6 = 0 ∧
      breakpointAt (lrate 1 2 6) 2 := by
  have h := schedule_C3_amended ⟨2, 3, 2, 1, 0⟩ (by decide) (by decide)
    (by norm_num)
  exact ⟨h.2.1, h.2.2.1, h.2.2.2.1,
    (h.2.2.2.2.2.2.1 2 (by decide) (by decide)).mpr rfl⟩

/-! ## Counting lemmas for the confusion matrix -/

theorem sum_map_add_nat {γ : Type} (l : List γ) (f g : γ → ℕ) :
    (l.map (fun b => f b + g b)).sum = (l.map f).sum + (l.map g).sum := by
  induction l with
  | nil => simp
  | cons b bs ih =>
    simp only [List.map_cons, List.sum_cons, ih]
    omega

theorem sum_map_indicator (labels : List String) (k : String) :
    (labels.map (fun a => if k = a then (1 : ℕ) else 0)).sum =
      labels.count k := by
  induction labels with
  | nil => simp
  | cons b bs ih =>
    simp only [List.map_cons, List.sum_cons, List.count_cons, ih, beq_iff_eq]
    by_cases hkb : k = b
    · simp [hkb, Nat.add_comm]
    · have hbk : ¬ b = k := fun h => hkb h.symm
      simp [hkb, hbk]

theorem sum_countP_snd (labels : List String) (hnd : labels.Nodup)
    (pairs : List (String × String)) (hmem : ∀ x ∈ pairs, x.2 ∈ labels)
    (a : String) :
    (labels.map
        (fun b => pairs.countP (fun x => decide (x.1 = a ∧ x.2 = b)))).sum =
      pairs.countP (fun x => decide (x.1 = a)) := by
  induction pairs with
  | nil => simp
  | cons x xs ih =>
    have hx2 : x.2 ∈ labels := hmem x (List.mem_cons_self x xs)
    have hxs : ∀ y ∈ xs, y.2 ∈ labels :=
      fun y hy => hmem y (List.mem_cons_of_mem x hy)
    simp only [List.countP_cons]
    rw [sum_map_add_nat, ih hxs]
    congr 1
    by_cases ha : x.1 = a
    · have hif : ∀ b, (if decide (x.1 = a ∧ x.2 = b) = true then (1 : ℕ) else 0) =
          if x.2 = b then 1 else 0 := by
        intro b
        simp [ha]
      simp only [hif]
      rw [sum_map_indicator labels x.2, List.count_eq_one_of_mem hnd hx2]
      simp [ha]
    · simp [ha]

theorem sum_countP_fst (labels : List String) (hnd : labels.Nodup)
    (pairs : List (String × String)) (hmem : ∀ x ∈ pairs, x.1 ∈ labels) :
    (labels.map (fun a => pairs.countP (fun x => decide (x.1 = a)))).sum =
      pairs.length := by
  induction pairs with
  | nil => simp
  | cons x xs ih =>
    have hx1 : x.1 ∈ labels := hmem x (List.mem_cons_self x xs)
    have hxs : ∀ y ∈ xs, y.1 ∈ labels :=
      fun y hy => hmem y (List.mem_cons_of_mem x hy)
    simp only [List.countP_cons]
    rw [sum_map_add_nat, ih hxs]
    simp only [List.length_cons]
    congr 1
    have : ∀ a, (if decide (x.1 = a) = true then (1 : ℕ) else 0) =
        if x.1 = a then 1 else 0 := by
      intro a
      simp
    simp only [this, sum_map_indicator]
    exact List.count_eq_one_of_mem hnd hx1

theorem countP_zip_fst (a : String) :
    ∀ (t p : List String), t.length = p.length →
      (t.zip p).countP (fun x => decide (x.1 = a)) = t.count a := by
  intro t
  induction t with
  | nil => simp
  | cons b bs ih =>
    intro p hp
    cases p with
    | nil => simp at hp
    | cons c cs =>
      simp only [List.zip_cons_cons, List.countP_cons, List.count_cons]
      rw [ih cs (by simpa using hp)]
      simp [beq_iff_eq]

theorem getD_map_of_lt {β γ : Type} (f : β → γ) (dβ : β) (dγ : γ)
    (l : List β) (i : ℕ) (hi : i < l.length) :
    (l.map f).getD i dγ = f (l.getD i dβ) := by
  have h : i < (l.map f).length := by
    simp only [List.length_map]
    exact hi
  rw [List.getD_eq_getElem?_getD, List.getElem?_eq_getElem h,
    List.getD_eq_getElem?_getD, List.getElem?_eq_getElem hi]
  simp

/-- C5: the confusion matrix has one row and one column per intent of the
fixed canonical order (rows present even for zero-support intents), cell
`(i, j)` counts examples with true intent `i` and predicted intent `j`, the
sum of all cells is the number of evaluated examples, and row `i` sums to
the number of examples with true label `i`. -/
theorem confusion_C5 (labels t p : List String) (hlen : t.length = p.length)
    (hnd : labels.Nodup) (ht : ∀ x ∈ t, x ∈ labels)
    (hp : ∀ x ∈ p, x ∈ labels) :
    (confusionMatrix labels t p).length = labels.length ∧
    (∀ row ∈ confusionMatrix labels t p, row.length = labels.length) ∧
    (∀ i < labels.length, ∀ j < labels.length,
      ((confusionMatrix labels t p).getD i []).getD j 0 =
        countPairs t p (labels.getD i "") (labels.getD j "")) ∧
    ((confusionMatrix labels t p).map List.sum).sum = t.length ∧
    (∀ i < labels.length,
      ((confusionMatrix labels t p).getD i []).sum =
        t.count (labels.getD i "")) := by
  have hfst : ∀ x ∈ t.zip p, x.1 ∈ labels :=
    fun x hx => ht x.1 (List.of_mem_zip hx).1
  have hsnd : ∀ x ∈ t.zip p, x.2 ∈ labels :=
    fun x hx => hp x.2 (List.of_mem_zip hx).2
  refine ⟨by simp [confusionMatrix], ?_, ?_, ?_, ?_⟩
  · intro row hrow
    obtain ⟨a, _, rfl⟩ := List.mem_map.mp hrow
    simp
  · intro i hi j hj
    rw [confusionMatrix,
      getD_map_of_lt (fun a => labels.map (fun b => countPairs t p a b)) "" []
        labels i hi,
      getD_map_of_lt (fun b => countPairs t p (labels.getD i "") b) "" 0
        labels j hj]
  · rw [confusionMatrix, List.map_map]
    have hrows : (List.sum ∘ fun a => labels.map (fun b => countPairs t p a b)) =
        fun a => (t.zip p).countP (fun x => decide (x.1 = a)) := by
      funext a
      exact sum_countP_snd labels hnd (t.zip p) hsnd a
    rw [hrows, sum_countP_fst labels hnd (t.zip p) hfst, List.length_zip,
      hlen, Nat.min_self]
  · intro i hi
    rw [confusionMatrix,
      getD_map_of_lt (fun a => labels.map (fun b => countPairs t p a b)) "" []
        labels i hi]
    simp only [countPairs]
    rw [sum_countP_snd labels hnd (t.zip p) hsnd,
      countP_zip_fst _ t p hlen]

/-- Witness for C5: the spec's `[A,A,B]` versus `[A,B,B]` scenario over
labels `[A,B]` — all cells sum to 3 and row `A` sums to 2. -/
theorem confusion_C5_witness :
    ((confusionMatrix ["A", "B"] ["A", "A", "B"] ["A", "B", "B"]).map
        List.sum).sum = 3 ∧
    ((confusionMatrix ["A", "B"] ["A", "A", "B"] ["A", "B", "B"]).getD 0
        []).sum = 2 := by
  have h := confusion_C5 ["A", "B"] ["A", "A", "B"] ["A", "B", "B"]
    (by decide) (by decide) (by decide) (by decide)
  refine ⟨by rw [h.2.2.2.1]; decide, ?_⟩
  rw [h.2.2.2.2 0 (by decide)]
  decide

/-- C6 (code bug exhibit): `classification_report` at `evaluate.py` lines
94-99 passes the 7 `target_names` but not `labels`, so scikit-learn infers
the label set from the data.  With true labels `["salary_inquiry"]` and
identical predictions — six intents absent from both ground truth and
predictions, a class-imbalance edge case the claim explicitly covers — the
inferred set has size 1 ≠ 7 and the call raises `ValueError` instead of
substituting zeros and continuing to a complete report.  And when every
intent does occur, the inferred set is alphabetically sorted while
`target_names` follow creation order, so the rows are positionally
misattributed: the row named `salary_inquiry` (first target name) carries
the metrics of `company_info` (alphabetically first) — support 2 although
`salary_inquiry` occurs once. -/
theorem evaluator_C6_bug :
    classification_report
        ["salary_inquiry", "meeting_room_booking", "leave_request",
          "directory_search", "company_info", "employee_info",
          "employee_search"]
        ["salary_inquiry"] ["salary_inquiry"] =
      Except.error ReportError.valueError ∧
    (∃ rep,
      classification_report
          ["salary_inquiry", "meeting_room_booking", "leave_request",
            "directory_search", "company_info", "employee_info",
            "employee_search"]
          ["salary_inquiry", "meeting_room_booking", "leave_request",
            "directory_search", "company_info", "employee_info",
            "employee_search", "company_info"]
          ["salary_inquiry", "meeting_room_booking", "leave_request",
            "directory_search", "company_info", "employee_info",
            "employee_search", "company_info"] =
        Except.ok rep ∧
      (rep.getD 0 ("", 0, 0, 0, 0)).1 = "salary_inquiry" ∧
      (rep.getD 0 ("", 0, 0, 0, 0)).2.2.2.2 = 2 ∧
      (["salary_inquiry", "meeting_room_booking", "leave_request",
          "directory_search", "company_info", "employee_info",
          "employee_search", "company_info"] : List String).count
        "salary_inquiry" = 1) := by
  refine ⟨rfl, ⟨_, rfl, by decide, by decide, by decide⟩⟩

/-- C7: `validate` iterates the unshuffled validation batches (their
concatenation is the validation set in order), returns accuracy equal to
the number of examples whose `argmax(logits)` equals their label over the
total number of validation examples, and returns the mean of the per-batch
losses. -/
theorem validate_C7 (B : ℕ) (hB : 0 < B) (lossOf : List ValExample → ℚ)
    (examples : List ValExample) (hne : examples ≠ []) :
    (chunkList B examples).flatten = examples ∧
    (validateRun B lossOf examples).2 =
      ((examples.countP correctPred : ℕ) : ℚ) / ((examples.length : ℕ) : ℚ) ∧
    (validateRun B lossOf examples).1 =
      ((chunkList B examples).map lossOf).sum /
        (((chunkList B examples).length : ℕ) : ℚ) := by
  refine ⟨chunkList_flatten B examples, ?_, rfl⟩
  have hcor : ((chunkList B examples).map (fun b => b.countP correctPred)).sum =
      examples.countP correctPred := by
    conv_rhs => rw [← chunkList_flatten B examples]
    rw [List.countP_flatten]
  have htot : ((chunkList B examples).map List.length).sum =
      examples.length := by
    conv_rhs => rw [← chunkList_flatten B examples]
    rw [List.length_flatten]
  have h2 : (validateRun B lossOf examples).2 =
      ((((chunkList B examples).map (fun b => b.countP correctPred)).sum : ℕ) : ℚ) /
        ((((chunkList B examples).map List.length).sum : ℕ) : ℚ) := rfl
  rw [h2, hcor, htot]

/-- Witness for C7 with batch size 2 over three examples: accuracy 2/3. -/
theorem validate_C7_witness :
    (validateRun 2 (fun b => (b.length : ℚ))
        [⟨[1, 0], 0⟩, ⟨[0, 1], 0⟩, ⟨[0, 1], 1⟩]).2 = 2 / 3 := by
  have h := validate_C7 2 (by decide) (fun b => (b.length : ℚ))
    [⟨[1, 0], 0⟩, ⟨[0, 1], 0⟩, ⟨[0, 1], 1⟩] (by decide)
  rw [h.2.1]
  have hc : List.countP correctPred
      [(⟨[1, 0], 0⟩ : ValExample), ⟨[0, 1], 0⟩, ⟨[0, 1], 1⟩] = 2 := by decide
  rw [hc]
  norm_num

/-! ## Pattern-count dictionary lemmas -/

theorem bumpPattern_lookup (acc : List ((String × String) × ℕ))
    (pat q : String × String) :
    ((bumpPattern acc pat).lookup q).getD 0 =
      ((acc.lookup q).getD 0) + (if q = pat then 1 else 0) := by
  induction acc with
  | nil =>
    by_cases hq : q = pat
    · subst hq
      simp [bumpPattern, List.lookup_cons]
    · have hb : (q == pat) = false := beq_eq_false_iff_ne.mpr hq
      simp [bumpPattern, List.lookup_cons, hb, hq]
  | cons rn rest ih =>
    obtain ⟨r, n⟩ := rn
    by_cases hr : r = pat
    · subst hr
      by_cases hq : q = r
      · subst hq
        simp [bumpPattern, List.lookup_cons]
      · have hb : (q == r) = false := beq_eq_false_iff_ne.mpr hq
        simp [bumpPattern, List.lookup_cons, hb, hq]
    · by_cases hq : q = r
      · subst hq
        have hqp : ¬ q = pat := hr
        simp [bumpPattern, hr, List.lookup_cons, hqp]
      · have hb : (q == r) = false := beq_eq_false_iff_ne.mpr hq
        simp [bumpPattern, hr, List.lookup_cons, hb, ih]

theorem foldl_bumpPattern_lookup (es : List ErrRec) :
    ∀ (acc : List ((String × String) × ℕ)) (q : String × String),
      ((es.foldl (fun a e => bumpPattern a (errPattern e)) acc).lookup q).getD 0 =
        ((acc.lookup q).getD 0) +
          es.countP (fun e => decide (errPattern e = q)) := by
  induction es with
  | nil => simp
  | cons e es ih =>
    intro acc q
    simp only [List.foldl_cons, List.countP_cons]
    rw [ih, bumpPattern_lookup]
    by_cases hq : q = errPattern e
    · simp [hq]
      omega
    · have : ¬ errPattern e = q := fun h => hq h.symm
      simp [hq, this]

/-- C8: the error analysis records exactly the misclassified examples (one
`ErrRec` per example whose predicted intent differs from its true intent,
carrying text, true intent, predicted intent, predicted-class confidence,
true-class confidence and their difference), the reported error list is
sorted in descending order of predicted-class confidence, every
`(true → predicted)` pattern count equals the number of errors with that
pattern, and the reported pattern list is a permutation of the counts
sorted in descending order of frequency. -/
theorem errorAnalysis_C8 (rs : List PredRecord) :
    (sortErrors (errorsOf rs)).Perm
      ((rs.filter (fun r => decide (r.trueIntent ≠ r.predIntent))).map mkErr) ∧
    (sortErrors (errorsOf rs)).Pairwise (fun a b => b.predConf ≤ a.predConf) ∧
    (∀ q, ((patternCounts (errorsOf rs)).lookup q).getD 0 =
      (errorsOf rs).countP (fun e => decide (errPattern e = q))) ∧
    (sortPatterns (patternCounts (errorsOf rs))).Perm
      (patternCounts (errorsOf rs)) ∧
    (sortPatterns (patternCounts (errorsOf rs))).Pairwise
      (fun a b => b.2 ≤ a.2) := by
  refine ⟨List.mergeSort_perm _ _, ?_, ?_, List.mergeSort_perm _ _, ?_⟩
  · have h := @List.sorted_mergeSort ErrRec
      (fun a b : ErrRec => decide (b.predConf ≤ a.predConf))
      (fun a b c h1 h2 => by
        simp only [decide_eq_true_eq] at h1 h2 ⊢
        exact le_trans h2 h1)
      (fun a b => by
        simp only [Bool.or_eq_true, decide_eq_true_eq]
        exact le_total b.predConf a.predConf)
      (errorsOf rs)
    exact h.imp (fun hab => by simpa using hab)
  · intro q
    have := foldl_bumpPattern_lookup (errorsOf rs) [] q
    simpa [patternCounts] using this
  · have h := @List.sorted_mergeSort ((String × String) × ℕ)
      (fun a b : (String × String) × ℕ => decide (b.2 ≤ a.2))
      (fun a b c h1 h2 => by
        simp only [decide_eq_true_eq] at h1 h2 ⊢
        exact le_trans h2 h1)
      (fun a b => by
        simp only [Bool.or_eq_true, decide_eq_true_eq]
        exact Nat.le_total b.2 a.2)
      (patternCounts (errorsOf rs))
    exact h.imp (fun hab => by simpa using hab)

/-! ## Dataset construction lemmas -/

theorem encode_labels_error (intentSet : List String) :
    ∀ (labels : List String), (∃ l ∈ labels, l ∉ intentSet) →
      encode_labels intentSet labels =
        Except.error DataError.encodingError := by
  intro labels
  induction labels with
  | nil =>
    rintro ⟨l, hl, _⟩
    exact absurd hl (List.not_mem_nil l)
  | cons l ls ih =>
    rintro ⟨x, hx, hxn⟩
    rcases List.mem_cons.mp hx with rfl | hx2
    · rw [encode_labels, if_neg hxn]
    · by_cases hl : l ∈ intentSet
      · rw [encode_labels, if_pos hl, ih ⟨x, hx2, hxn⟩]
      · rw [encode_labels, if_neg hl]

theorem encode_labels_ok (intentSet : List String) :
    ∀ (labels : List String), (∀ l ∈ labels, l ∈ intentSet) →
      encode_labels intentSet labels =
        Except.ok (labels.map (fun l => intentSet.indexOf l)) := by
  intro labels
  induction labels with
  | nil =>
    intro
    simp [encode_labels]
  | cons l ls ih =>
    intro h
    rw [encode_labels, if_pos (h l (List.mem_cons_self l ls)),
      ih (fun x hx => h x (List.mem_cons_of_mem l hx))]
    simp

/-- C9: constructing the dataset fails with `EncodingError` exactly when
some label lies outside the fixed intent set; on success the dataset's
length is the number of texts, its `encoded_data` is the eagerly computed
tokenization of all texts, its `label_ids` are the labels' dense ids, and
every indexed read returns the values stored at construction time (no
recomputation). -/
theorem dataset_C9 (intentSet : List String) (tok : String → List ℕ × List ℕ)
    (texts labels : List String) :
    ((∃ l ∈ labels, l ∉ intentSet) →
      mkIntentDataset intentSet tok texts labels =
        Except.error DataError.encodingError) ∧
    ((∀ l ∈ labels, l ∈ intentSet) →
      ∃ d, mkIntentDataset intentSet tok texts labels = Except.ok d ∧
        datasetLen d = texts.length ∧
        d.encoded_data = texts.map tok ∧
        d.label_ids = labels.map (fun l => intentSet.indexOf l) ∧
        (∀ i, getItem d i =
          ((texts.map tok).getD i ([], []),
            (labels.map (fun l => intentSet.indexOf l)).getD i 0))) := by
  constructor
  · intro h
    rw [mkIntentDataset, encode_labels_error intentSet labels h]
  · intro h
    rw [mkIntentDataset, encode_labels_ok intentSet labels h]
    exact ⟨_, rfl, rfl, rfl, rfl, fun i => rfl⟩

/-- Witness for C9: an out-of-set label makes construction fail with
`EncodingError`; with valid labels the dataset has one entry per text. -/
theorem dataset_C9_witness :
    mkIntentDataset ["A", "B"] (fun t => ([t.length], [1])) ["hi"] ["C"] =
      Except.error DataError.encodingError ∧
    ∃ d, mkIntentDataset ["A", "B"] (fun t => ([t.length], [1])) ["hi"] ["A"] =
      Except.ok d ∧ datasetLen d = 1 := by
  constructor
  · exact (dataset_C9 ["A", "B"] (fun t => ([t.length], [1])) ["hi"] ["C"]).1
      ⟨"C", by decide, by decide⟩
  · obtain ⟨d, h1, h2, _⟩ :=
      (dataset_C9 ["A", "B"] (fun t => ([t.length], [1])) ["hi"] ["A"]).2
        (by decide)
    exact ⟨d, h1, h2⟩

end IntentRec

